import Mathlib

/-!
Verification of the `ethanroday/bloom-filter` repository (TypeScript).

The development shallowly embeds the two Bloom-filter implementations of the
repository (`src/bloom-filter.ts`, the configuration-object class, and
`src/index.ts`, the positional-constructor class) together with the bundled
FNV-1a hash (`src/fnv1a/index.ts`), and proves the spec's claims about them.

Modelling conventions:
* JavaScript numbers used as integers are modelled by `ℤ` (or `ℕ` where the
  source guarantees non-negativity); `falsePositiveRate` is modelled by `ℚ`.
  The transcendental formulas of `calculateNumHashes` / `calculateSize`
  (`Math.log`, `Math.round`, `Math.ceil` over IEEE doubles) are modelled over
  `ℝ` with `Real.log`, `round` and `Int.ceil`.
* Strings are Lean `String`s; `charCodeAt` is modelled by the character codes
  `Char.toNat` (the inputs of interest are ASCII, where UTF-16 code units and
  code points coincide).
* JavaScript's 32-bit operations inside `fnv1a` (`^`, `<<` on `ToInt32`
  values, `>>> 0`) all act on the two's-complement bit pattern, i.e. on the
  residue of the number modulo 2^32; the embedding tracks that residue as a
  `ℕ` below 2^32 at each conversion point, which represents the same bits.
* JavaScript's remainder operator `%` truncates towards zero (the sign of the
  result follows the dividend), which is exactly `Int.tmod`.
-/

namespace BloomFilterTS

/-! ## The FNV-1a hash, from `src/fnv1a/index.ts` -/

/-- `OFFSET_BASIS_32` from `src/fnv1a/index.ts`. -/
def OFFSET_BASIS_32 : ℕ := 2166136261

/-- One loop iteration of `fnv1a`:
`hash ^= string.charCodeAt(i)` followed by
`hash += (hash << 1) + (hash << 4) + (hash << 7) + (hash << 8) + (hash << 24)`.
The xor operates on the `ToInt32` pattern of the accumulator, i.e. on
`hash % 2^32`; each shift produces an `Int32` pattern, i.e. the residue
`(h * 2^k) % 2^32`; the additions are exact double-precision arithmetic. -/
def fnv1aStep (hash c : ℕ) : ℕ :=
  let h := (hash % 2 ^ 32) ^^^ c
  h + h * 2 ^ 1 % 2 ^ 32 + h * 2 ^ 4 % 2 ^ 32 + h * 2 ^ 7 % 2 ^ 32
    + h * 2 ^ 8 % 2 ^ 32 + h * 2 ^ 24 % 2 ^ 32

/-- `fnv1a` from `src/fnv1a/index.ts`, on a list of character codes: fold
`fnv1aStep` over the characters starting from the offset basis, and return
the final value coerced to unsigned 32-bit range (`hash >>> 0`). -/
def fnv1a (s : List ℕ) : ℕ :=
  (s.foldl fnv1aStep OFFSET_BASIS_32) % 2 ^ 32

/-- The character codes of a string (`charCodeAt` over each position). -/
def charCodes (s : String) : List ℕ :=
  s.data.map Char.toNat

/-- `fnv1a` applied to a string. -/
def fnv1aStr (s : String) : ℕ :=
  fnv1a (charCodes s)

/-- Modelled from the spec: the reference FNV-1a step, which multiplies by the
FNV prime 16777619 literally instead of via shift-and-add, everything reduced
modulo 2^32. Used to state that the source's shift-and-add form "behaves
identically" to the prime multiplication. -/
def fnv1aStepSpec (hash c : ℕ) : ℕ :=
  ((hash ^^^ c) * 16777619) % 2 ^ 32

/-- Modelled from the spec: the reference FNV-1a hash by literal prime
multiplication, with the accumulator kept reduced modulo 2^32 throughout. -/
def fnv1aSpec (s : List ℕ) : ℕ :=
  s.foldl fnv1aStepSpec (OFFSET_BASIS_32 % 2 ^ 32)

/-! ## Errors and configuration, from `src/bloom-filter.ts` and `src/types.ts` -/

/-- The `InvalidParameter` failure raised by `checkProperties`; each
constructor records which field the thrown `TypeError` message names. -/
inductive InvalidParameter where
  | size
  | numHashes
  | falsePositiveRate
  | maxCapacity
deriving DecidableEq, Repr

/-- `HashFunction` from `src/types.ts`: `(value: string) => number`. The
result is a JavaScript number, which may be negative, hence `ℤ`. -/
def HashFunction : Type := String → ℤ

/-- `BloomFilterInputProperties` from `src/types.ts`: all fields optional. -/
structure BloomFilterInputProperties where
  size : Option ℤ := none
  numHashes : Option ℤ := none
  falsePositiveRate : Option ℚ := none
  maxCapacity : Option ℤ := none
  hashFunction : Option HashFunction := none

/-- `BloomFilterParameters` from `src/types.ts`: the resolved pair. -/
structure BloomFilterParameters where
  size : ℤ
  numHashes : ℤ
deriving DecidableEq, Repr

/-- Modelled from the spec: `DEFAULT_ARRAY_SIZE` from `src/constants.ts`
(the file is absent from the sources; the spec and the class doc comment
document the default size 10000). -/
def DEFAULT_ARRAY_SIZE : ℤ := 10000

/-- Modelled from the spec: `DEFAULT_NUM_HASHES` from `src/constants.ts`
(the file is absent from the sources; the spec and the class doc comment
document the default hash count 4). -/
def DEFAULT_NUM_HASHES : ℤ := 4

/-- JavaScript's `x || d` on a validated optional number: `undefined` and `0`
are falsy and fall through to the default. -/
def jsOr (o : Option ℤ) (d : ℤ) : ℤ :=
  match o with
  | some v => if v = 0 then d else v
  | none => d

/-- `calculateNumHashes` from `src/bloom-filter.ts`:
`Math.round((size / maxCapacity) * Math.log(2))`. -/
noncomputable def calculateNumHashes (size maxCapacity : ℤ) : ℤ :=
  round (((size : ℝ) / (maxCapacity : ℝ)) * Real.log 2)

/-- `calculateSize` from `src/bloom-filter.ts`:
`Math.ceil((-maxCapacity * Math.log(falsePositiveRate)) / Math.log(2) ** 2)`. -/
noncomputable def calculateSize (maxCapacity : ℤ) (falsePositiveRate : ℚ) : ℤ :=
  ⌈(-(maxCapacity : ℝ) * Real.log (falsePositiveRate : ℝ)) / Real.log 2 ^ 2⌉

/-- `checkProperties` from `src/bloom-filter.ts`: validate the ranges of the
supplied fields (in source order: `size`, `numHashes`, `falsePositiveRate`,
`maxCapacity`; a comparison with `undefined` is false, so an omitted field
never throws), then resolve `{size, numHashes}` by the source's if-chain:
both given → verbatim; else `size` and `maxCapacity` given → calculate
`numHashes`; else `maxCapacity` and `falsePositiveRate` given → calculate
both; else use what is given with the defaults (`size || DEFAULT_ARRAY_SIZE`,
`numHashes || DEFAULT_NUM_HASHES`). -/
noncomputable def checkProperties (props : BloomFilterInputProperties) :
    Except InvalidParameter BloomFilterParameters :=
  if props.size.any fun v => v ≤ 0 then
    .error .size
  else if props.numHashes.any fun v => v ≤ 0 then
    .error .numHashes
  else if props.falsePositiveRate.any fun p => p ≤ 0 ∨ 1 < p then
    .error .falsePositiveRate
  else if props.maxCapacity.any fun v => v ≤ 0 then
    .error .maxCapacity
  else
    .ok <|
      match props.size, props.numHashes, props.maxCapacity, props.falsePositiveRate with
      | some s, some k, _, _ => ⟨s, k⟩
      | some s, none, some n, _ => ⟨s, calculateNumHashes s n⟩
      | none, _, some n, some p =>
          ⟨calculateSize n p, calculateNumHashes (calculateSize n p) n⟩
      | some s, none, none, _ => ⟨jsOr (some s) DEFAULT_ARRAY_SIZE, jsOr none DEFAULT_NUM_HASHES⟩
      | none, k, some _, none => ⟨jsOr none DEFAULT_ARRAY_SIZE, jsOr k DEFAULT_NUM_HASHES⟩
      | none, k, none, _ => ⟨jsOr none DEFAULT_ARRAY_SIZE, jsOr k DEFAULT_NUM_HASHES⟩

/-! ## The filter state and membership operations

Both classes store a fixed-length bit array, a hash count and (for
`src/bloom-filter.ts`) a hash function; the bit array (`bit-array` package /
`boolean[]`) is modelled as a `List Bool` indexed by `get`/`set`. -/

/-- The state of a Bloom filter object: `bitArray`, `numHashes`,
`hashFunction` (fields of the class in `src/bloom-filter.ts`). -/
structure BloomFilter where
  bitArray : List Bool
  numHashes : ℕ
  hashFunction : HashFunction

/-- `bitArray.set(index, true)` at a JavaScript (possibly negative) index:
in-bounds indices update the array; an out-of-bounds write is modelled as a
no-op (no theorem below depends on out-of-bounds writes). -/
def bitSet (l : List Bool) (i : ℤ) : List Bool :=
  if 0 ≤ i ∧ i.toNat < l.length then l.set i.toNat true else l

/-- `bitArray.get(index)` at a JavaScript index: out-of-bounds or negative
reads yield a falsy value. -/
def bitGet (l : List Bool) (i : ℤ) : Bool :=
  if 0 ≤ i then l.getD i.toNat false else false

/-- The default hash function installed by both constructors: `fnv1a`. -/
def defaultHashFunction : HashFunction :=
  fun s => (fnv1aStr s : ℤ)

namespace BloomFilter

/-- `getHashes` from `src/bloom-filter.ts` (identical in `src/index.ts` with
`fnv1a` fixed): for `i` in `0 .. numHashes-1`, the index
`hashFunction(stringified + i) % bitArray.size()`, where `+ i` appends the
decimal representation of `i` and `%` is JavaScript's truncating remainder. -/
def getHashes (f : BloomFilter) (value : String) : List ℤ :=
  (List.range f.numHashes).map fun i =>
    (f.hashFunction (value ++ toString i)).tmod (f.bitArray.length : ℤ)

/-- `add` from `src/bloom-filter.ts` / `src/index.ts`: set the bit at every
index of `getHashes`. -/
def add (f : BloomFilter) (value : String) : BloomFilter :=
  { f with bitArray := (f.getHashes value).foldl bitSet f.bitArray }

/-- `check` from `src/bloom-filter.ts` / `src/index.ts`: true iff the bit at
every index of `getHashes` is set. -/
def check (f : BloomFilter) (value : String) : Bool :=
  (f.getHashes value).all fun i => bitGet f.bitArray i

/-- `getSize` from `src/bloom-filter.ts`: the size of the bit array. -/
def getSize (f : BloomFilter) : ℕ :=
  f.bitArray.length

/-- `getNumHashes` from `src/bloom-filter.ts`. -/
def getNumHashes (f : BloomFilter) : ℕ :=
  f.numHashes

/-- The constructor of `src/bloom-filter.ts`: resolve the properties with
`checkProperties` (propagating its `InvalidParameter` failure), allocate
`new BitArray(size)`, and install the supplied hash function or `fnv1a`. -/
noncomputable def ofProps (props : BloomFilterInputProperties) :
    Except InvalidParameter BloomFilter :=
  (checkProperties props).map fun p =>
    { bitArray := List.replicate p.size.toNat false
      numHashes := p.numHashes.toNat
      hashFunction := props.hashFunction.getD defaultHashFunction }

/-- The positional constructor of `src/index.ts`: `new BloomFilter(size,
numHashes)` allocates `new Array(size).fill(false)` with no validation and
always hashes with `fnv1a`. -/
def ofSizeNumHashes (size numHashes : ℕ) : BloomFilter :=
  { bitArray := List.replicate size false
    numHashes := numHashes
    hashFunction := defaultHashFunction }

end BloomFilter

/-! ## Lemmas about the hash -/

lemma fnv1aStep_mod (a c : ℕ) :
    fnv1aStep a c % 2 ^ 32 = fnv1aStepSpec (a % 2 ^ 32) c := by
  unfold fnv1aStep fnv1aStepSpec
  set x : ℕ := (a % 2 ^ 32) ^^^ c with hx
  have e : x + x * 2 ^ 1 + x * 2 ^ 4 + x * 2 ^ 7 + x * 2 ^ 8 + x * 2 ^ 24
      = x * 16777619 := by ring
  calc (x + x * 2 ^ 1 % 2 ^ 32 + x * 2 ^ 4 % 2 ^ 32 + x * 2 ^ 7 % 2 ^ 32
        + x * 2 ^ 8 % 2 ^ 32 + x * 2 ^ 24 % 2 ^ 32) % 2 ^ 32
      = (x + x * 2 ^ 1 + x * 2 ^ 4 + x * 2 ^ 7 + x * 2 ^ 8 + x * 2 ^ 24) % 2 ^ 32 :=
        (((((Nat.ModEq.refl x).add (Nat.mod_modEq _ _)).add
          (Nat.mod_modEq _ _)).add (Nat.mod_modEq _ _)).add
          (Nat.mod_modEq _ _)).add (Nat.mod_modEq _ _)
    _ = x * 16777619 % 2 ^ 32 := by rw [e]

lemma foldl_fnv1aStep_mod (s : List ℕ) :
    ∀ a : ℕ, (s.foldl fnv1aStep a) % 2 ^ 32 = s.foldl fnv1aStepSpec (a % 2 ^ 32) := by
  induction s with
  | nil => intro a; rfl
  | cons c t ih =>
      intro a
      simp only [List.foldl_cons, ih (fnv1aStep a c), fnv1aStep_mod]

/-! ## Lemmas about the bit array -/

lemma bitSet_length (l : List Bool) (i : ℤ) : (bitSet l i).length = l.length := by
  unfold bitSet
  split <;> simp

lemma bitGet_true_bounds {l : List Bool} {i : ℤ} (h : bitGet l i = true) :
    0 ≤ i ∧ i.toNat < l.length := by
  unfold bitGet at h
  by_cases h0 : 0 ≤ i
  · rw [if_pos h0] at h
    refine ⟨h0, ?_⟩
    by_contra hge
    rw [List.getD_eq_getElem?_getD, List.getElem?_eq_none (by omega)] at h
    simp at h
  · rw [if_neg h0] at h
    exact absurd h (by simp)

lemma bitGet_bitSet_self {l : List Bool} {i : ℤ} (h0 : 0 ≤ i)
    (hlt : i.toNat < l.length) : bitGet (bitSet l i) i = true := by
  unfold bitSet bitGet
  rw [if_pos h0, if_pos ⟨h0, hlt⟩, List.getD_eq_getElem?_getD,
    List.getElem?_set_self (by simpa using hlt)]
  rfl

lemma bitGet_bitSet_ne {l : List Bool} {i j : ℤ} (hne : j ≠ i) :
    bitGet (bitSet l i) j = bitGet l j := by
  unfold bitSet bitGet
  by_cases h0 : 0 ≤ j
  · rw [if_pos h0, if_pos h0]
    by_cases hA : 0 ≤ i ∧ i.toNat < l.length
    · rw [if_pos hA, List.getD_eq_getElem?_getD, List.getD_eq_getElem?_getD,
        List.getElem?_set_ne (by omega)]
    · rw [if_neg hA]
  · rw [if_neg h0, if_neg h0]

lemma bitGet_bitSet_mono {l : List Bool} {i j : ℤ} (h : bitGet l j = true) :
    bitGet (bitSet l i) j = true := by
  rcases eq_or_ne j i with rfl | hne
  · obtain ⟨h0, hlt⟩ := bitGet_true_bounds h
    exact bitGet_bitSet_self h0 hlt
  · rw [bitGet_bitSet_ne hne]
    exact h

lemma foldl_bitSet_length (hs : List ℤ) :
    ∀ arr : List Bool, (hs.foldl bitSet arr).length = arr.length := by
  induction hs with
  | nil => intro arr; rfl
  | cons a t ih => intro arr; rw [List.foldl_cons, ih, bitSet_length]

lemma bitGet_foldl_bitSet_mono (hs : List ℤ) {j : ℤ} :
    ∀ {arr : List Bool}, bitGet arr j = true →
      bitGet (hs.foldl bitSet arr) j = true := by
  induction hs with
  | nil => intro arr h; exact h
  | cons a t ih => intro arr h; exact ih (bitGet_bitSet_mono h)

lemma bitGet_foldl_bitSet_mem (hs : List ℤ) {j : ℤ} :
    ∀ {arr : List Bool}, (∀ i ∈ hs, 0 ≤ i ∧ i.toNat < arr.length) → j ∈ hs →
      bitGet (hs.foldl bitSet arr) j = true := by
  induction hs with
  | nil => intro arr _ hj; cases hj
  | cons a t ih =>
      intro arr hb hj
      rw [List.foldl_cons]
      rcases List.mem_cons.mp hj with rfl | hjt
      · refine bitGet_foldl_bitSet_mono t ?_
        obtain ⟨h0, hlt⟩ := hb j (List.mem_cons_self _ _)
        exact bitGet_bitSet_self h0 hlt
      · refine ih (fun i hi => ?_) hjt
        rw [bitSet_length]
        exact hb i (List.mem_cons_of_mem _ hi)

lemma bitGet_foldl_bitSet_not_mem (hs : List ℤ) {j : ℤ} (hj : j ∉ hs) :
    ∀ arr : List Bool, bitGet (hs.foldl bitSet arr) j = bitGet arr j := by
  induction hs with
  | nil => intro arr; rfl
  | cons a t ih =>
      intro arr
      rw [List.foldl_cons, ih (fun h => hj (List.mem_cons_of_mem _ h)),
        bitGet_bitSet_ne (fun h => hj (by rw [h]; exact List.mem_cons_self _ _))]

lemma bitGet_foldl_bitSet (hs : List ℤ) (arr : List Bool) (j : ℤ)
    (hb : ∀ i ∈ hs, 0 ≤ i ∧ i.toNat < arr.length) :
    bitGet (hs.foldl bitSet arr) j = (bitGet arr j || decide (j ∈ hs)) := by
  by_cases hj : j ∈ hs
  · simp [hj, bitGet_foldl_bitSet_mem hs hb hj]
  · simp [hj, bitGet_foldl_bitSet_not_mem hs hj arr]

/-! ## Lemmas about the membership operations -/

namespace BloomFilter

lemma add_bitArray_length (f : BloomFilter) (v : String) :
    (f.add v).bitArray.length = f.bitArray.length := by
  unfold add
  exact foldl_bitSet_length _ _

lemma add_numHashes (f : BloomFilter) (v : String) :
    (f.add v).numHashes = f.numHashes := rfl

lemma add_hashFunction (f : BloomFilter) (v : String) :
    (f.add v).hashFunction = f.hashFunction := rfl

lemma getHashes_add (f : BloomFilter) (v w : String) :
    (f.add v).getHashes w = f.getHashes w := by
  unfold getHashes
  rw [add_numHashes, add_hashFunction, add_bitArray_length]

lemma getHashes_bounds (f : BloomFilter) (v : String)
    (hnn : ∀ s, 0 ≤ f.hashFunction s) (hcap : 0 < f.bitArray.length) :
    ∀ i ∈ f.getHashes v, 0 ≤ i ∧ i.toNat < f.bitArray.length := by
  intro i hi
  unfold getHashes at hi
  obtain ⟨k, _, rfl⟩ := List.mem_map.mp hi
  have h0 : (0 : ℤ) ≤ (f.hashFunction (v ++ toString k)).tmod (f.bitArray.length : ℤ) :=
    Int.tmod_nonneg _ (hnn _)
  have hlt : (f.hashFunction (v ++ toString k)).tmod (f.bitArray.length : ℤ)
      < (f.bitArray.length : ℤ) :=
    Int.tmod_lt_of_pos _ (by exact_mod_cast hcap)
  exact ⟨h0, by omega⟩

lemma check_add_self (f : BloomFilter) (v : String)
    (hnn : ∀ s, 0 ≤ f.hashFunction s) (hcap : 0 < f.bitArray.length) :
    (f.add v).check v = true := by
  unfold check
  rw [getHashes_add]
  refine List.all_eq_true.mpr fun i hi => ?_
  show bitGet (f.add v).bitArray i = true
  unfold add
  exact bitGet_foldl_bitSet_mem _ (getHashes_bounds f v hnn hcap) hi

lemma check_add_mono (f : BloomFilter) (v w : String)
    (h : f.check v = true) : (f.add w).check v = true := by
  unfold check at h ⊢
  rw [getHashes_add]
  refine List.all_eq_true.mpr fun i hi => ?_
  show bitGet (f.add w).bitArray i = true
  unfold add
  exact bitGet_foldl_bitSet_mono _ (List.all_eq_true.mp h i hi)

end BloomFilter

/-! ## Claim theorems: membership operations and the hash -/

/-- C1: No false negatives. For every filter whose hash function obeys the
spec's contract (non-negative results) and whose capacity is positive — as
every construction from valid parameters yields — after any sequence of
`add` calls containing `add v`, `check v` returns true. -/
theorem no_false_negatives (f : BloomFilter) (l : List String) (v : String)
    (hnn : ∀ s, 0 ≤ f.hashFunction s) (hcap : 0 < f.bitArray.length)
    (hv : v ∈ l) : (l.foldl BloomFilter.add f).check v = true := by
  induction l generalizing f with
  | nil => cases hv
  | cons a t ih =>
      rw [List.foldl_cons]
      have hnn' : ∀ s, 0 ≤ (f.add a).hashFunction s := by
        rw [BloomFilter.add_hashFunction]; exact hnn
      have hcap' : 0 < (f.add a).bitArray.length := by
        rw [BloomFilter.add_bitArray_length]; exact hcap
      rcases List.mem_cons.mp hv with rfl | hvt
      · clear ih
        have hstart := BloomFilter.check_add_self f v hnn hcap
        -- further adds never clear the bits of `v`
        generalize hfa : f.add v = g at hstart hnn' hcap'
        clear hfa hnn hcap hv
        induction t generalizing g with
        | nil => exact hstart
        | cons b u ihu =>
            rw [List.foldl_cons]
            refine ihu (g.add b) (BloomFilter.check_add_mono g v b hstart) ?_ ?_
            · rw [BloomFilter.add_hashFunction]; exact hnn'
            · rw [BloomFilter.add_bitArray_length]; exact hcap'
      · exact ih (f.add a) hnn' hcap' hvt

/-- C1 witness: a concrete filter (capacity 16, two hashes, default FNV-1a
hash), adds of `"b"` then `"a"`, membership check of `"a"`. -/
theorem no_false_negatives_witness :
    0 < (BloomFilter.ofSizeNumHashes 16 2).bitArray.length ∧
    (["b", "a"].foldl BloomFilter.add (BloomFilter.ofSizeNumHashes 16 2)).check "a" = true :=
  ⟨by decide,
    no_false_negatives (BloomFilter.ofSizeNumHashes 16 2) ["b", "a"] "a"
      (fun _ => Int.natCast_nonneg _) (by decide) (by decide)⟩

/-- C2: Index derivation. Under the hash-function contract (non-negative
results) and positive capacity: the indices computed by `add` and `check` are
`hashFunction(value ++ decimal i) mod capacity` for `i < hashCount` (with the
mathematical, non-negative `mod`); `add` sets exactly the bits at those
indices, leaving every other bit unchanged; and `check` returns true iff the
bit at every one of those indices is true. (`check` is a pure function of the
state in this embedding, so it leaves the state unchanged by construction.) -/
theorem index_derivation (f : BloomFilter) (v : String)
    (hnn : ∀ s, 0 ≤ f.hashFunction s) (hcap : 0 < f.bitArray.length) :
    f.getHashes v = (List.range f.numHashes).map
        (fun i => f.hashFunction (v ++ toString i) % (f.bitArray.length : ℤ)) ∧
    (∀ j : ℤ, bitGet (f.add v).bitArray j
        = (bitGet f.bitArray j || decide (j ∈ f.getHashes v))) ∧
    (f.check v = true ↔ ∀ j ∈ f.getHashes v, bitGet f.bitArray j = true) := by
  refine ⟨?_, ?_, ?_⟩
  · unfold BloomFilter.getHashes
    refine List.map_congr_left fun i _ => ?_
    exact Int.tmod_eq_emod (hnn _) (Int.natCast_nonneg _)
  · intro j
    show bitGet ((f.getHashes v).foldl bitSet f.bitArray) j = _
    exact bitGet_foldl_bitSet _ _ j (BloomFilter.getHashes_bounds f v hnn hcap)
  · unfold BloomFilter.check
    exact List.all_eq_true

/-- C2 witness: the exact-bits equation of `index_derivation` instantiated at
a concrete filter, value and bit position. -/
theorem index_derivation_witness :
    bitGet ((BloomFilter.ofSizeNumHashes 16 2).add "a").bitArray 4
      = (bitGet (BloomFilter.ofSizeNumHashes 16 2).bitArray 4
          || decide ((4 : ℤ) ∈ (BloomFilter.ofSizeNumHashes 16 2).getHashes "a")) :=
  (index_derivation (BloomFilter.ofSizeNumHashes 16 2) "a"
    (fun _ => Int.natCast_nonneg _) (by decide)).2.1 4

/-- C8 (amended): Negative-by-absence. On a filter whose bit array is still
all-false (as freshly constructed by either constructor) and whose hash count
is at least 1 — which resolution rules 1 and 4 guarantee, but which a derived
hash count need not satisfy — `check` returns false for every value. (When
the resolved hash count is 0, `check` vacuously returns true for every value
on a fresh filter, refuting the unrestricted claim.) -/
theorem negative_by_absence (f : BloomFilter) (v : String)
    (hfresh : ∀ b ∈ f.bitArray, b = false) (hk : 1 ≤ f.numHashes) :
    f.check v = false := by
  have hget : ∀ i : ℤ, bitGet f.bitArray i = false := by
    intro i
    by_contra hb
    have htrue : bitGet f.bitArray i = true := by
      cases h : bitGet f.bitArray i with
      | false => exact absurd h hb
      | true => rfl
    obtain ⟨h0, hlt⟩ := bitGet_true_bounds htrue
    unfold bitGet at htrue
    rw [if_pos h0, List.getD_eq_getElem?_getD, List.getElem?_eq_getElem hlt] at htrue
    have hx : f.bitArray[i.toNat] = true := by simpa using htrue
    exact absurd (hfresh _ (List.getElem_mem hlt)) (by simp [hx])
  have hmem : ((f.hashFunction (v ++ toString 0)).tmod (f.bitArray.length : ℤ))
      ∈ f.getHashes v := by
    unfold BloomFilter.getHashes
    exact List.mem_map_of_mem _ (List.mem_range.mpr hk)
  unfold BloomFilter.check
  rw [List.all_eq_false]
  exact ⟨_, hmem, by rw [hget]; decide⟩

/-- C8 witness: a freshly constructed filter of capacity 16 with 2 hashes
rejects `"a"`. -/
theorem negative_by_absence_witness :
    1 ≤ (BloomFilter.ofSizeNumHashes 16 2).numHashes ∧
    (BloomFilter.ofSizeNumHashes 16 2).check "a" = false :=
  ⟨by decide,
    negative_by_absence (BloomFilter.ofSizeNumHashes 16 2) "a"
      (fun b hb => by simpa using List.eq_of_mem_replicate hb) (by decide)⟩

/-- C9: Monotonicity. A bit that is true before an operation is true after
it: `add` only ever sets bits (and `check`, `getSize`, `getNumHashes` are
pure functions that return no new state in this embedding, so they preserve
the bits trivially). -/
theorem monotonicity (f : BloomFilter) (v : String) (j : ℤ)
    (h : bitGet f.bitArray j = true) : bitGet (f.add v).bitArray j = true := by
  show bitGet ((f.getHashes v).foldl bitSet f.bitArray) j = true
  exact bitGet_foldl_bitSet_mono _ h

/-- C9 witness: the single true bit of a one-bit filter survives an `add`. -/
theorem monotonicity_witness :
    bitGet (⟨[true], 1, defaultHashFunction⟩ : BloomFilter).bitArray 0 = true ∧
    bitGet ((⟨[true], 1, defaultHashFunction⟩ : BloomFilter).add "a").bitArray 0 = true :=
  ⟨by decide, monotonicity ⟨[true], 1, defaultHashFunction⟩ "a" 0 (by decide)⟩

/-- C10: Default hash correctness. The source's `fnv1a` — offset basis
2166136261, per-character xor of the code followed by the shift-and-add form
of the FNV-prime multiplication, coerced to unsigned 32-bit range at the end
— computes exactly the 32-bit FNV-1a hash by literal multiplication with
16777619 modulo 2^32, and its result always lies in `[0, 2^32)`. -/
theorem fnv1a_correct : ∀ s : List ℕ, fnv1a s = fnv1aSpec s ∧ fnv1a s < 2 ^ 32 := by
  intro s
  constructor
  · unfold fnv1a fnv1aSpec
    rw [foldl_fnv1aStep_mod]
  · exact Nat.mod_lt _ (by norm_num)

/-- C6 counterexample: a filter of capacity 10 whose supplied hash function
returns -1 computes the index -1 (JavaScript's signed remainder), which does
not lie in `[0, capacity)`. -/
theorem nonneg_index_counterexample :
    ¬ (∀ i ∈ (⟨List.replicate 10 false, 1, fun _ => -1⟩ : BloomFilter).getHashes "a",
        0 ≤ i ∧ i < ((⟨List.replicate 10 false, 1, fun _ => -1⟩ :
          BloomFilter).bitArray.length : ℤ)) := by
  decide

/-- C6 (amended): for every supplied hash function whose results are
non-negative — as the spec's `hashFunction` contract (string to unsigned
32-bit integer) and the default `fnv1a` guarantee — and positive capacity,
each index computed by `add` and `check` lies in `[0, capacity)`. -/
theorem nonneg_index_amended (f : BloomFilter) (v : String)
    (hnn : ∀ s, 0 ≤ f.hashFunction s) (hcap : 0 < f.bitArray.length) :
    ∀ i ∈ f.getHashes v, 0 ≤ i ∧ i < (f.bitArray.length : ℤ) := by
  intro i hi
  obtain ⟨h0, hlt⟩ := BloomFilter.getHashes_bounds f v hnn hcap i hi
  exact ⟨h0, by omega⟩

/-- C6 witness: the index 4 computed for `"a"` on a concrete default-hash
filter of capacity 16 lies in `[0, 16)`. -/
theorem nonneg_index_amended_witness :
    (0 : ℤ) ≤ 4 ∧ (4 : ℤ) < ((BloomFilter.ofSizeNumHashes 16 2).bitArray.length : ℤ) :=
  nonneg_index_amended (BloomFilter.ofSizeNumHashes 16 2) "a"
    (fun _ => Int.natCast_nonneg _) (by decide) 4 (by decide)

/-! ## Claim theorems: validation and parameter resolution -/

/-- C3: Constructor validation raises iff a supplied parameter violates its
range (`size ≤ 0`, `numHashes ≤ 0`, `maxCapacity ≤ 0`, `falsePositiveRate`
outside `(0, 1]`), the raised error naming the offending field; the listed
boundary inputs behave as the spec states, and omitted parameters (the empty
configuration) never raise. -/
theorem validation_raises_iff :
    (∀ props : BloomFilterInputProperties,
      (∃ e, checkProperties props = .error e) ↔
        ((∃ v, props.size = some v ∧ v ≤ 0) ∨
         (∃ v, props.numHashes = some v ∧ v ≤ 0) ∨
         (∃ p, props.falsePositiveRate = some p ∧ (p ≤ 0 ∨ 1 < p)) ∨
         (∃ v, props.maxCapacity = some v ∧ v ≤ 0))) ∧
    checkProperties { size := some 0 } = .error .size ∧
    checkProperties { size := some (-1) } = .error .size ∧
    (checkProperties { size := some 1 }).isOk = true ∧
    checkProperties { numHashes := some 0 } = .error .numHashes ∧
    checkProperties { numHashes := some (-1) } = .error .numHashes ∧
    (checkProperties { numHashes := some 1 }).isOk = true ∧
    checkProperties { maxCapacity := some 0 } = .error .maxCapacity ∧
    checkProperties { maxCapacity := some (-1) } = .error .maxCapacity ∧
    (checkProperties { maxCapacity := some 1 }).isOk = true ∧
    checkProperties { falsePositiveRate := some 0 } = .error .falsePositiveRate ∧
    checkProperties { falsePositiveRate := some 2 } = .error .falsePositiveRate ∧
    (checkProperties { falsePositiveRate := some (1/200) }).isOk = true ∧
    (checkProperties {}).isOk = true := by
  refine ⟨?_, ?_, ?_, ?_, ?_, ?_, ?_, ?_, ?_, ?_, ?_, ?_, ?_, ?_⟩
  · rintro ⟨sz, nh, fpr, mc, hf⟩
    unfold checkProperties
    rcases sz with _ | s <;> rcases nh with _ | k <;> rcases fpr with _ | p <;>
      rcases mc with _ | n <;>
      simp [Option.any] <;> split_ifs <;> simp_all
  all_goals norm_num [checkProperties, Option.any, Except.isOk, Except.toBool]

/-- The spec's literal rule-1 configuration:
`{size: 100000, numHashes: 4, maxCapacity: 10000, falsePositiveRate: 0.05}`. -/
def fullQuadruple : BloomFilterInputProperties :=
  { size := some 100000
    numHashes := some 4
    falsePositiveRate := some (1/20)
    maxCapacity := some 10000 }

/-- C4: Resolution priority and defaults. When `size` and `numHashes` are
both given they are used verbatim and every other input is ignored (the
spec's literal quadruple resolves to capacity 100000 and hash count 4, as
reported by `getSize` and `getNumHashes` on the constructed filter); when
none of rules 1-3 applies, the resolution is `size`-if-given-else-10000 and
`numHashes`-if-given-else-4; the empty configuration yields 10000 and 4. -/
theorem resolution_priority_and_defaults :
    checkProperties fullQuadruple = .ok ⟨100000, 4⟩ ∧
    (BloomFilter.ofProps fullQuadruple).map BloomFilter.getSize = .ok 100000 ∧
    (BloomFilter.ofProps fullQuadruple).map BloomFilter.getNumHashes = .ok 4 ∧
    (∀ props : BloomFilterInputProperties,
      (checkProperties props).isOk = true →
      ¬(props.size.isSome = true ∧ props.numHashes.isSome = true) →
      ¬(props.size.isSome = true ∧ props.maxCapacity.isSome = true) →
      ¬(props.maxCapacity.isSome = true ∧ props.falsePositiveRate.isSome = true) →
      checkProperties props = .ok ⟨props.size.getD DEFAULT_ARRAY_SIZE,
        props.numHashes.getD DEFAULT_NUM_HASHES⟩) ∧
    checkProperties {} = .ok ⟨10000, 4⟩ := by
  refine ⟨?_, ?_, ?_, ?_, ?_⟩
  · norm_num [fullQuadruple, checkProperties, Option.any]
  · norm_num [fullQuadruple, BloomFilter.ofProps, BloomFilter.getSize, checkProperties, Option.any,
      Except.map, List.length_replicate]
    rfl
  · norm_num [fullQuadruple, BloomFilter.ofProps, BloomFilter.getNumHashes, checkProperties, Option.any,
      Except.map]
    rfl
  · rintro ⟨sz, nh, fpr, mc, hf⟩ hok h1 h2 h3
    rcases sz with _ | s <;> rcases nh with _ | k <;> rcases fpr with _ | p <;>
      rcases mc with _ | n <;>
      simp_all [Option.any, checkProperties, jsOr, Except.isOk, Except.toBool] <;>
      split_ifs at * <;> simp_all
  · simp [checkProperties, jsOr, DEFAULT_ARRAY_SIZE, DEFAULT_NUM_HASHES]

/-- C4 witness: the rule-4 branch of `resolution_priority_and_defaults`
instantiated at a configuration giving only `numHashes`. -/
theorem resolution_priority_and_defaults_witness :
    checkProperties { numHashes := some 5 } = .ok ⟨10000, 5⟩ := by
  have h := resolution_priority_and_defaults.2.2.2.1 { numHashes := some 5 }
    (by norm_num [checkProperties, Option.any, Except.isOk, Except.toBool])
    (by simp) (by simp) (by simp)
  simpa [DEFAULT_ARRAY_SIZE, DEFAULT_NUM_HASHES] using h

lemma checkProperties_pos (props : BloomFilterInputProperties)
    (p : BloomFilterParameters) (h : checkProperties props = .ok p)
    (hrule : (props.size.isSome = true ∧ props.numHashes.isSome = true) ∨
      (¬(props.size.isSome = true ∧ props.maxCapacity.isSome = true) ∧
        ¬(props.maxCapacity.isSome = true ∧ props.falsePositiveRate.isSome = true))) :
    0 < p.size ∧ 0 < p.numHashes := by
  rcases p with ⟨ps, pk⟩
  rcases props with ⟨sz, nh, fpr, mc, hf⟩
  rcases sz with _ | s <;> rcases nh with _ | k <;> rcases fpr with _ | q <;>
    rcases mc with _ | n <;>
    simp_all [checkProperties, Option.any, jsOr, DEFAULT_ARRAY_SIZE, DEFAULT_NUM_HASHES] <;>
    (try split_ifs at *) <;> (try simp_all) <;> omega

/-- C7 counterexample: the configuration-object constructor applied to
`{maxCapacity: 1, falsePositiveRate: 1}` passes validation (1 > 0 and
0 < 1 ≤ 1), resolves through rule 3 to `calculateSize(1, 1) = ⌈0⌉ = 0` and
`calculateNumHashes(0, 1) = 0`, and completes without raising with a filter
of capacity 0 and hash count 0 — violating `capacity ≥ 1 ∧ hashCount ≥ 1`. -/
theorem never_invalid_counterexample :
    (BloomFilter.ofProps { maxCapacity := some 1, falsePositiveRate := some 1 }).map
      BloomFilter.getSize = .ok 0 ∧
    (BloomFilter.ofProps { maxCapacity := some 1, falsePositiveRate := some 1 }).map
      BloomFilter.getNumHashes = .ok 0 := by
  constructor <;>
    norm_num [BloomFilter.ofProps, BloomFilter.getSize, BloomFilter.getNumHashes,
      checkProperties, Option.any, Except.map, calculateSize, calculateNumHashes,
      Real.log_one]

/-- C7 (amended): every construction through the configuration-object
constructor that completes without raising and does not resolve through the
derived-value rules 2 or 3 — i.e. rule 1 (both `size` and `numHashes` given)
or rule 4 (the given-or-default branch, with or without a `maxCapacity`)
applies — yields a filter with capacity ≥ 1 and hash count ≥ 1; both are
immutable afterwards, so they hold for the filter's lifetime. (Rule 2 can
round the derived hash count to 0, rule 3 can ceil the derived capacity to
0, and the positional constructor of `src/index.ts` performs no validation
at all, so the unrestricted claim fails.) -/
theorem never_invalid_amended (props : BloomFilterInputProperties)
    (f : BloomFilter) (hok : BloomFilter.ofProps props = .ok f)
    (hrule : (props.size.isSome = true ∧ props.numHashes.isSome = true) ∨
      (¬(props.size.isSome = true ∧ props.maxCapacity.isSome = true) ∧
        ¬(props.maxCapacity.isSome = true ∧ props.falsePositiveRate.isSome = true))) :
    1 ≤ f.getSize ∧ 1 ≤ f.getNumHashes := by
  unfold BloomFilter.ofProps at hok
  cases hcp : checkProperties props with
  | error e =>
      rw [hcp] at hok
      exact absurd hok (by simp [Except.map])
  | ok p =>
      rw [hcp] at hok
      simp only [Except.map, Except.ok.injEq] at hok
      obtain ⟨hs, hk⟩ := checkProperties_pos props p hcp hrule
      rw [← hok]
      unfold BloomFilter.getSize BloomFilter.getNumHashes
      simp only [List.length_replicate]
      omega

/-- C7 witness: the amended statement at the concrete configuration
`{size: 3, numHashes: 2}`. -/
theorem never_invalid_amended_witness :
    1 ≤ (⟨List.replicate 3 false, 2, defaultHashFunction⟩ : BloomFilter).getSize ∧
    1 ≤ (⟨List.replicate 3 false, 2, defaultHashFunction⟩ : BloomFilter).getNumHashes :=
  never_invalid_amended { size := some 3, numHashes := some 2 } _ (by rfl)
    (Or.inl (by simp))

/-! ## Numeric bounds for the derivation formulas -/

lemma log_five_quarters_bounds :
    (0.2231423 : ℝ) < Real.log (5/4) ∧ Real.log (5/4) < 0.2231450 := by
  have hneg : (-1/4 : ℝ) = -(1/4) := by norm_num
  have habs : |(1/4 : ℝ)| = 1/4 := abs_of_nonneg (by norm_num)
  have hx : |(-1/4 : ℝ)| < 1 := by rw [hneg, abs_neg, habs]; norm_num
  have h := Real.abs_log_sub_add_sum_range_le hx 9
  rw [abs_le, hneg, abs_neg, habs] at h
  norm_num [Finset.sum_range_succ] at h
  constructor <;> linarith

lemma log_twenty_eq : Real.log 20 = 4 * Real.log 2 + Real.log (5/4) := by
  have h20 : (20 : ℝ) = 2 ^ 4 * (5/4) := by norm_num
  rw [h20, Real.log_mul (by norm_num) (by norm_num), Real.log_pow]
  norm_num

lemma calculateNumHashes_100000_10000 : calculateNumHashes 100000 10000 = 7 := by
  unfold calculateNumHashes
  have hL1 := Real.log_two_gt_d9
  have hL2 := Real.log_two_lt_d9
  have hr : (((100000 : ℤ) : ℝ) / ((10000 : ℤ) : ℝ)) = 10 := by norm_num
  rw [hr, round_eq, Int.floor_eq_iff]
  constructor <;> push_cast <;> nlinarith

lemma calculateNumHashes_62353_10000 : calculateNumHashes 62353 10000 = 4 := by
  unfold calculateNumHashes
  have hL1 := Real.log_two_gt_d9
  have hL2 := Real.log_two_lt_d9
  have hr : (((62353 : ℤ) : ℝ) / ((10000 : ℤ) : ℝ)) = 62353 / 10000 := by norm_num
  rw [hr, round_eq, Int.floor_eq_iff]
  constructor <;> push_cast <;> nlinarith

lemma calculateNumHashes_1_2 : calculateNumHashes 1 2 = 0 := by
  unfold calculateNumHashes
  have hL1 := Real.log_two_gt_d9
  have hL2 := Real.log_two_lt_d9
  have hr : (((1 : ℤ) : ℝ) / ((2 : ℤ) : ℝ)) = 1/2 := by norm_num
  rw [hr, round_eq, Int.floor_eq_iff]
  constructor <;> push_cast <;> nlinarith

lemma calculateSize_10000_one_twentieth : calculateSize 10000 (1/20) = 62353 := by
  unfold calculateSize
  have hL1 := Real.log_two_gt_d9
  have hL2 := Real.log_two_lt_d9
  obtain ⟨hM1, hM2⟩ := log_five_quarters_bounds
  have hq : (((1 : ℚ)/20 : ℚ) : ℝ) = 1/20 := by norm_num
  have hlog : Real.log ((1 : ℝ)/20) = -(4 * Real.log 2 + Real.log (5/4)) := by
    rw [one_div, Real.log_inv, log_twenty_eq]
  have hL0 : (0 : ℝ) < Real.log 2 := by linarith
  rw [hq, hlog, Int.ceil_eq_iff]
  have hden : (0 : ℝ) < Real.log 2 ^ 2 := by positivity
  constructor
  · rw [lt_div_iff₀ hden]
    push_cast
    nlinarith
  · rw [div_le_iff₀ hden]
    push_cast
    nlinarith

/-- C5: Derivation formulas. `calculateNumHashes` and `calculateSize` compute
`round((m / n) * ln 2)` and `⌈(-n * ln p) / (ln 2)^2⌉` (the embedding uses
exact real arithmetic for the double-precision evaluation; the values are far
from rounding boundaries); in particular `{maxCapacity: 10000, size: 100000}`
resolves the hash count to 7, and `{maxCapacity: 10000, falsePositiveRate:
0.05}` resolves the capacity to 62353 and the hash count to 4. -/
theorem derivation_formulas :
    (∀ m n : ℤ, calculateNumHashes m n = round (((m : ℝ) / (n : ℝ)) * Real.log 2)) ∧
    (∀ (n : ℤ) (p : ℚ), calculateSize n p
      = ⌈(-(n : ℝ) * Real.log (p : ℝ)) / Real.log 2 ^ 2⌉) ∧
    checkProperties { size := some 100000, maxCapacity := some 10000 } = .ok ⟨100000, 7⟩ ∧
    checkProperties { maxCapacity := some 10000, falsePositiveRate := some (1/20) }
      = .ok ⟨62353, 4⟩ := by
  refine ⟨fun m n => rfl, fun n p => rfl, ?_, ?_⟩
  · norm_num [checkProperties, Option.any, calculateNumHashes_100000_10000]
  · have h1 := calculateSize_10000_one_twentieth
    have h2 := calculateNumHashes_62353_10000
    norm_num [checkProperties, Option.any, h1, h2]

/-- C8 counterexample: `{size: 1, maxCapacity: 2}` is a valid-parameter
construction (1 > 0, 2 > 0 pass validation), but rule 2 derives
`calculateNumHashes(1, 2) = round(0.5 * ln 2) = 0`; with zero hash indices
`check` is a vacuous conjunction, so the freshly constructed filter — no
`add` ever called — answers `check("a") = true`, refuting negative-by-absence
as stated. -/
theorem negative_by_absence_counterexample :
    (BloomFilter.ofProps { size := some 1, maxCapacity := some 2 }).map
      BloomFilter.getNumHashes = .ok 0 ∧
    (BloomFilter.ofProps { size := some 1, maxCapacity := some 2 }).map
      (fun f => f.check "a") = .ok true := by
  constructor <;>
    norm_num [BloomFilter.ofProps, checkProperties, Option.any, Except.map,
      calculateNumHashes_1_2, BloomFilter.getNumHashes, BloomFilter.check,
      BloomFilter.getHashes]

end BloomFilterTS
